import Mathlib

/-!
Shallow embedding of `src/array_ptr.h` (class `ArraydPtr`) and
`src/simple_vector.h` (class `SimpleVector` plus its free comparison
operators), together with proofs settling the specification claims.

Modelling conventions:
* A raw owning array pointer is `Option (List α)`: `none` is the null
  pointer, `some buf` a heap buffer whose cells hold the listed values.
* `size_t` is `Nat` (the code never relies on wrap-around).
* A C++ function that throws is an `Except String` value carrying the
  exception message.
* Iterators into the vector are represented by their offset from
  `begin()`; `end()` is the offset `size_`.
* `new Type[n]()` value-initialisation is modelled by the `default`
  value of an `Inhabited` instance.
-/

/-- `ArraydPtr<Type>` from `src/array_ptr.h`: a single owned raw pointer,
null by default. -/
structure ArraydPtr (α : Type) where
  ptr_ : Option (List α)
deriving DecidableEq, Repr

namespace ArraydPtr

/-- Default constructor: null pointer. -/
def mk0 : ArraydPtr α := ⟨none⟩

/-- `explicit operator bool()`: true iff `ptr_ != nullptr`. -/
def toBool (p : ArraydPtr α) : Bool := p.ptr_.isSome

/-- `GetRawPtr()`: the stored pointer, unchanged ownership. -/
def GetRawPtr (p : ArraydPtr α) : Option (List α) := p.ptr_

/-- `Release()`: returns the old pointer and nulls the field. -/
def Release (p : ArraydPtr α) : Option (List α) × ArraydPtr α :=
  (p.ptr_, ⟨none⟩)

/-- `operator*() const`: `if (*this) return *ptr_; else throw
std::logic_error("Point to zero");` — the dereferenced value is the
first cell of the owned buffer. -/
def derefStar [Inhabited α] (p : ArraydPtr α) : Except String α :=
  if p.toBool then .ok ((p.ptr_.getD []).getD 0 default)
  else .error "Point to zero"

/-- `operator->() const`: `if (*this) return ptr_; else throw
std::logic_error("Point to zero");` — returns the raw address. -/
def derefArrow (p : ArraydPtr α) : Except String (List α) :=
  if p.toBool then .ok (p.ptr_.getD [])
  else .error "Point to zero"

/-- `Swap(ArraydPtr&)`: exchanges the two stored pointers. -/
def SwapWith (p q : ArraydPtr α) : ArraydPtr α × ArraydPtr α :=
  (⟨q.ptr_⟩, ⟨p.ptr_⟩)

end ArraydPtr

/-- `SimpleVector<Type>` from `src/simple_vector.h`: a logical size, a
capacity, and an `ArraydPtr` to the backing buffer. -/
structure SimpleVector (α : Type) where
  size_ : Nat
  capacity_ : Nat
  items_ : ArraydPtr α
deriving DecidableEq, Repr

namespace SimpleVector

/-- The backing buffer's cells (`[]` when the pointer is null). -/
def buf (v : SimpleVector α) : List α := v.items_.ptr_.getD []

/-- `GetSize()`. -/
def GetSize (v : SimpleVector α) : Nat := v.size_

/-- `GetCapacity()`. -/
def GetCapacity (v : SimpleVector α) : Nat := v.capacity_

/-- `IsEmpty()`: `size_ == 0 ? true : false`. -/
def IsEmpty (v : SimpleVector α) : Bool := v.size_ == 0

/-- `operator[](i)`: unchecked read of buffer cell `i`. -/
def get [Inhabited α] (v : SimpleVector α) (index : Nat) : α :=
  v.buf.getD index default

/-- The logical contents: the first `size_` cells of the buffer. -/
def toList (v : SimpleVector α) : List α := v.buf.take v.size_

/-- Well-formedness used as a hypothesis of the general theorems:
`size_ ≤ capacity_` and the buffer really has `capacity_` cells (so in
particular the pointer is non-null whenever `capacity_ > 0`). -/
def WF (v : SimpleVector α) : Prop :=
  v.size_ ≤ v.capacity_ ∧ v.buf.length = v.capacity_

instance (v : SimpleVector α) : Decidable v.WF :=
  inferInstanceAs (Decidable (_ ∧ _))

/-- The reachable-state invariant as the specification states it:
`size ≤ capacity`, and the buffer address is non-null whenever
`capacity > 0`. -/
def Inv (v : SimpleVector α) : Prop :=
  v.size_ ≤ v.capacity_ ∧ (0 < v.capacity_ → v.items_.ptr_ ≠ none)

instance [DecidableEq α] (v : SimpleVector α) : Decidable v.Inv :=
  inferInstanceAs (Decidable (_ ∧ _))

/-- `SimpleVector()` (default constructor): size 0, capacity 0, null. -/
def mkDefault : SimpleVector α := ⟨0, 0, ⟨none⟩⟩

/-- `SimpleVector(size_t size)`: `size` default-initialised elements;
the buffer is allocated only when `capacity_ > 0`. -/
def mkSize [Inhabited α] (size : Nat) : SimpleVector α :=
  { size_ := size, capacity_ := size,
    items_ := ⟨if 0 < size then some (List.replicate size default) else none⟩ }

/-- `SimpleVector(const ReserveProxyObj&)`: delegates to
`SimpleVector(reserve.capacity_)` and then sets `size_ = 0`. -/
def mkReserve [Inhabited α] (capacity : Nat) : SimpleVector α :=
  { mkSize capacity with size_ := 0 }

/-- `SimpleVector(size_t size, const Type& value)`: here `size_ ==
capacity_`, and `std::fill` overwrites every allocated cell. -/
def mkFill (size : Nat) (value : α) : SimpleVector α :=
  { size_ := size, capacity_ := size,
    items_ := ⟨if 0 < size then some (List.replicate size value) else none⟩ }

/-- `SimpleVector(std::initializer_list<Type> init)`: buffer holds
exactly the listed elements; allocated only when `size_ > 0` (which
here coincides with `capacity_ > 0`). -/
def mkInit (init : List α) : SimpleVector α :=
  { size_ := init.length, capacity_ := init.length,
    items_ := ⟨if 0 < init.length then some init else none⟩ }

/-- Copy constructor `SimpleVector(const SimpleVector& other)`: copies
the two counters, and allocates-and-copies **only when `size_ > 0`** —
with `size_ == 0` and `capacity_ > 0` the new object keeps a null
buffer. The fresh allocation `new Type[capacity_]` leaves the cells
past `size_` default-initialised. -/
def copy [Inhabited α] (other : SimpleVector α) : SimpleVector α :=
  { size_ := other.size_, capacity_ := other.capacity_,
    items_ := ⟨if 0 < other.size_ then
        some (other.buf.take other.size_ ++
          List.replicate (other.capacity_ - other.size_) default)
      else none⟩ }

/-- Move constructor: the new object steals all three fields; the
source is left with size 0, capacity 0 and a null pointer. Returns
(new object, state of the moved-from source). -/
def moveCtor (other : SimpleVector α) : SimpleVector α × SimpleVector α :=
  (⟨other.size_, other.capacity_, other.items_⟩, ⟨0, 0, ⟨none⟩⟩)

/-- Move assignment. `same` is the address test `this == &other`:
when they alias, the guard `this != &other` skips the body and the one
object is unchanged; otherwise the target steals the source's fields
and the source is reset to empty. Returns (target, source) states. -/
def moveAssign (this other : SimpleVector α) (same : Bool) :
    SimpleVector α × SimpleVector α :=
  if same then (this, other)
  else (⟨other.size_, other.capacity_, other.items_⟩, ⟨0, 0, ⟨none⟩⟩)

/-- `At(size_t index)`: returns the element when `index < size_`,
otherwise `throw std::out_of_range("index >= size")`. `At` reads the
state and never mutates it, which the model reflects by it being a
pure function of the vector. -/
def At [Inhabited α] (v : SimpleVector α) (index : Nat) : Except String α :=
  if index < v.size_ then .ok (v.buf.getD index default)
  else .error "index >= size"

/-- `Clear()`: size to 0, everything else untouched. -/
def Clear (v : SimpleVector α) : SimpleVector α := { v with size_ := 0 }

/-- `std::fill(&items_[lo], &items_[hi], d)` on the buffer cells. -/
def listFill (l : List α) (lo hi : Nat) (d : α) : List α :=
  l.take lo ++ List.replicate (hi - lo) d ++ l.drop hi

/-- `Resize(size_t new_size)`:
* `size_ < new_size ≤ capacity_`: fill the cells `[size_, new_size)`
  with `Type()` in place;
* `new_size > capacity_`: build `SimpleVector copy(max(new_size,
  2*capacity_))` (all cells default), copy `[begin, end)` into it and
  swap — the buffer becomes the old contents padded with defaults;
* otherwise nothing;
then `size_ = new_size` unconditionally. -/
def Resize [Inhabited α] (v : SimpleVector α) (new_size : Nat) :
    SimpleVector α :=
  if v.size_ < new_size ∧ new_size ≤ v.capacity_ then
    { v with size_ := new_size,
             items_ := ⟨v.items_.ptr_.map
               (fun buf => listFill buf v.size_ new_size default)⟩ }
  else if v.capacity_ < new_size then
    { size_ := new_size,
      capacity_ := max new_size (2 * v.capacity_),
      items_ := ⟨some (v.buf.take v.size_ ++
        List.replicate (max new_size (2 * v.capacity_) - v.size_) default)⟩ }
  else
    { v with size_ := new_size }

/-- `Reserve(size_t new_capacity)`: when `new_capacity > capacity_`,
allocate a fresh buffer of exactly `new_capacity` default cells, copy
`[begin, end)` into it, swap buffers and set `capacity_`; in every
case finish with `size_ = min(size_, new_capacity)`. -/
def Reserve [Inhabited α] (v : SimpleVector α) (new_capacity : Nat) :
    SimpleVector α :=
  if v.capacity_ < new_capacity then
    { size_ := min v.size_ new_capacity,
      capacity_ := new_capacity,
      items_ := ⟨some (v.buf.take v.size_ ++
        List.replicate (new_capacity - v.size_) default)⟩ }
  else
    { v with size_ := min v.size_ new_capacity }

/-- `PushBack(const Type& item)`: `Resize(size_ + 1)` then
`items_[size_ - 1] = item`. -/
def PushBack [Inhabited α] (v : SimpleVector α) (item : α) :
    SimpleVector α :=
  let w := v.Resize (v.size_ + 1)
  { w with items_ := ⟨w.items_.ptr_.map (fun buf => buf.set (w.size_ - 1) item)⟩ }

/-- `PopBack()`: `if (!IsEmpty()) --size_;`. -/
def PopBack (v : SimpleVector α) : SimpleVector α :=
  if v.IsEmpty then v else { v with size_ := v.size_ - 1 }

/-- `std::copy(&items_[index+1], &items_[size_], &items_[index])`: the
cells `[index, size-1)` receive the values of `[index+1, size)`; the
cells from `size-1` on keep their (now logically absent) values. -/
def eraseShift (l : List α) (index size : Nat) : List α :=
  l.take index ++ (l.drop (index + 1)).take (size - 1 - index) ++
    l.drop (size - 1)

/-- `Erase(ConstIterator pos)` with `pos` as its offset
`index = pos - begin()`: when `pos != end()` shift `[index+1, size_)`
left one cell and decrement `size_`; always return the iterator offset
`index`. -/
def Erase (v : SimpleVector α) (index : Nat) : SimpleVector α × Nat :=
  if index ≠ v.size_ then
    ({ v with size_ := v.size_ - 1,
              items_ := ⟨v.items_.ptr_.map
                (fun buf => eraseShift buf index v.size_)⟩ }, index)
  else (v, index)

/-- `swap(SimpleVector&)`: exchanges buffers, capacities and sizes. -/
def swapWith (v w : SimpleVector α) : SimpleVector α × SimpleVector α :=
  (⟨w.size_, w.capacity_, w.items_⟩, ⟨v.size_, v.capacity_, v.items_⟩)

end SimpleVector

/-- `operator==`: `lhs.GetSize() == rhs.GetSize() ?
std::equal(lhs.cbegin(), lhs.cend(), rhs.cbegin(), rhs.cend()) :
false`. -/
def svEq [DecidableEq α] (lhs rhs : SimpleVector α) : Bool :=
  if lhs.GetSize = rhs.GetSize then lhs.toList = rhs.toList else false

/-- `operator!=`: `!(lhs == rhs)`. -/
def svNe [DecidableEq α] (lhs rhs : SimpleVector α) : Bool :=
  !(svEq lhs rhs)

/-- `std::lexicographical_compare` over element `operator<`. -/
def lexCompare [LinearOrder α] : List α → List α → Bool
  | _, [] => false
  | [], _ :: _ => true
  | a :: as, b :: bs =>
    if a < b then true
    else if b < a then false
    else lexCompare as bs

/-- `operator<`: `std::lexicographical_compare(lhs.cbegin(),
lhs.cend(), rhs.cbegin(), rhs.cend())`. -/
def svLt [LinearOrder α] (lhs rhs : SimpleVector α) : Bool :=
  lexCompare lhs.toList rhs.toList

/-- `operator<=`: `lhs < rhs || lhs == rhs`. -/
def svLe [LinearOrder α] (lhs rhs : SimpleVector α) : Bool :=
  svLt lhs rhs || svEq lhs rhs

/-- `operator>`: `!(lhs <= rhs)`. -/
def svGt [LinearOrder α] (lhs rhs : SimpleVector α) : Bool :=
  !(svLe lhs rhs)

/-- `operator>=`: `!(lhs < rhs)`. -/
def svGe [LinearOrder α] (lhs rhs : SimpleVector α) : Bool :=
  !(svLt lhs rhs)

/-- `k` successive `PushBack`s on a default-constructed
`SimpleVector<Nat>` (the value pushed is irrelevant to the capacity
sequence). -/
def pushN : Nat → SimpleVector Nat
  | 0 => SimpleVector.mkDefault
  | k + 1 => (pushN k).PushBack k

namespace SimpleVector

/-! Helper lemmas shared by the claim theorems. -/

theorem wf_ptr_some {α : Type} (v : SimpleVector α) (hwf : v.WF)
    (h : 0 < v.capacity_) : v.items_.ptr_ = some v.buf := by
  obtain ⟨hsc, hlen⟩ := hwf
  cases hp : v.items_.ptr_ with
  | none => simp [buf, hp] at hlen; omega
  | some b => simp [buf, hp]

theorem toList_length {α : Type} (v : SimpleVector α) (hwf : v.WF) :
    v.toList.length = v.GetSize := by
  rw [toList, List.length_take, hwf.2]
  exact Nat.min_eq_left hwf.1

end SimpleVector

namespace SimpleVector

/-- Claim C1, counterexample: for `v = {7}` (size 1, capacity 1) and
`n = 0 ≤ Capacity()`, `Reserve(0)` is not a no-op — it shrinks
`Size()` from 1 to 0 (the unconditional `size_ = std::min(size_,
new_capacity)` at the end of `Reserve`). -/
theorem reserve_noop_counterexample :
    0 ≤ (SimpleVector.mkInit [(7 : Nat)]).GetCapacity ∧
    ¬ (((SimpleVector.mkInit [(7 : Nat)]).Reserve 0).GetSize =
        (SimpleVector.mkInit [(7 : Nat)]).GetSize) := by decide

/-- Claim C1 (amended): if `n ≤ Capacity()`, `Reserve(n)` leaves the
capacity and the buffer unchanged and sets `Size()` to
`min(Size(), n)` — a true no-op only when `n ≥ Size()`; if
`n > Capacity()`, afterwards the capacity is exactly `n`, `Size()` is
unchanged, and the first `Size()` elements are preserved in order. -/
theorem reserve_spec {α : Type} [Inhabited α] (v : SimpleVector α) (n : Nat)
    (hwf : v.WF) :
    (n ≤ v.GetCapacity →
      (v.Reserve n).GetCapacity = v.GetCapacity ∧
      (v.Reserve n).items_ = v.items_ ∧
      (v.Reserve n).GetSize = min v.GetSize n) ∧
    (v.GetCapacity < n →
      (v.Reserve n).GetCapacity = n ∧
      (v.Reserve n).GetSize = v.GetSize ∧
      (v.Reserve n).toList = v.toList) := by
  obtain ⟨hsc, hlen⟩ := hwf
  constructor
  · intro hle
    have hnot : ¬ v.capacity_ < n := Nat.not_lt.mpr hle
    simp [Reserve, GetCapacity, GetSize, hnot]
  · intro hlt
    have hlt' : v.capacity_ < n := hlt
    have hsn : v.size_ ≤ n := Nat.le_of_lt (Nat.lt_of_le_of_lt hsc hlt')
    have hmin : min v.size_ n = v.size_ := Nat.min_eq_left hsn
    have htl : (v.buf.take v.size_).length = v.size_ := by
      rw [List.length_take, hlen]; exact Nat.min_eq_left hsc
    refine ⟨?_, ?_, ?_⟩
    · simp [Reserve, GetCapacity, hlt']
    · simp [Reserve, GetSize, hlt', hmin]
    · simp only [Reserve, hlt', if_true, reduceIte, toList, GetSize, buf,
        Option.getD_some, hmin]
      exact List.take_left' htl

/-- Witness for `reserve_spec` at `v = {7, 8}` (size 2, capacity 2),
`n = 1` and `n = 5`. -/
theorem reserve_spec_witness :
    ((SimpleVector.mkInit [(7 : Nat), 8]).Reserve 1).GetSize = min 2 1 ∧
    ((SimpleVector.mkInit [(7 : Nat), 8]).Reserve 5).GetCapacity = 5 ∧
    ((SimpleVector.mkInit [(7 : Nat), 8]).Reserve 5).toList =
      (SimpleVector.mkInit [(7 : Nat), 8]).toList :=
  ⟨((reserve_spec (SimpleVector.mkInit [(7 : Nat), 8]) 1 (by decide)).1
      (by decide)).2.2,
   ((reserve_spec (SimpleVector.mkInit [(7 : Nat), 8]) 5 (by decide)).2
      (by decide)).1,
   ((reserve_spec (SimpleVector.mkInit [(7 : Nat), 8]) 5 (by decide)).2
      (by decide)).2.2⟩


/-- Branch equation: `Resize` with `size_ < new_size ≤ capacity_`
fills the newly exposed cells in place. -/
theorem resize_eq_fill {α : Type} [Inhabited α] (v : SimpleVector α)
    (n : Nat) (h1 : v.size_ < n) (h2 : n ≤ v.capacity_) :
    v.Resize n =
      ⟨n, v.capacity_,
        ⟨v.items_.ptr_.map (fun b => listFill b v.size_ n default)⟩⟩ := by
  simp [Resize, h1, h2]

/-- Branch equation: `Resize` past the capacity reallocates to
`max(new_size, 2*capacity_)`. -/
theorem resize_eq_grow {α : Type} [Inhabited α] (v : SimpleVector α)
    (n : Nat) (h : v.capacity_ < n) :
    v.Resize n =
      ⟨n, max n (2 * v.capacity_),
        ⟨some (v.buf.take v.size_ ++
          List.replicate (max n (2 * v.capacity_) - v.size_) default)⟩⟩ := by
  have h2 : ¬ (v.size_ < n ∧ n ≤ v.capacity_) := by omega
  simp [Resize, h2, h]

/-- Branch equation: `Resize` to `new_size ≤ size_` only moves the
size marker. -/
theorem resize_eq_trunc {α : Type} [Inhabited α] (v : SimpleVector α)
    (n : Nat) (h1 : ¬ v.size_ < n) (h2 : n ≤ v.capacity_) :
    v.Resize n = ⟨n, v.capacity_, v.items_⟩ := by
  simp [Resize, h1, Nat.not_lt.mpr h2]

/-- Claim C2: after `Resize(n)`, `Size() == n` and `Capacity() ≥ n`;
for `n ≤ size` the logical contents are truncated to the old first `n`
elements; for `size < n` the old contents are preserved and the newly
exposed range `[size, n)` holds default-constructed values; and for
`n > capacity` the new capacity is exactly `max(n, 2*capacity)`. -/
theorem resize_spec {α : Type} [Inhabited α] (v : SimpleVector α) (n : Nat)
    (hwf : v.WF) :
    (v.Resize n).GetSize = n ∧
    n ≤ (v.Resize n).GetCapacity ∧
    (n ≤ v.GetSize → (v.Resize n).toList = v.toList.take n) ∧
    (v.GetSize < n →
      (v.Resize n).toList = v.toList ++ List.replicate (n - v.GetSize) default) ∧
    (v.GetCapacity < n →
      (v.Resize n).GetCapacity = max n (2 * v.GetCapacity)) := by
  obtain ⟨s, c, ⟨po⟩⟩ := v
  have hsc : s ≤ c := hwf.1
  have hlen : (po.getD []).length = c := hwf.2
  clear hwf
  by_cases hsn : s < n
  · by_cases hnc : n ≤ c
    · cases po with
      | none =>
        exfalso
        simp only [Option.getD_none, List.length_nil] at hlen
        omega
      | some b =>
        simp only [Option.getD_some] at hlen
        rw [resize_eq_fill ⟨s, c, ⟨some b⟩⟩ n hsn hnc]
        have htl : (b.take s).length = s := by
          rw [List.length_take]; omega
        refine ⟨rfl, hnc, fun h => absurd (show n ≤ s from h) (by omega),
          fun _ => ?_, fun h => absurd (show c < n from h) (by omega)⟩
        show List.take n
            (((some b).map (fun x => listFill x s n default)).getD []) =
          List.take s b ++ List.replicate (n - s) default
        simp only [Option.map_some', Option.getD_some, listFill]
        have hlen2 :
            (List.take s b ++ List.replicate (n - s) (default : α)).length =
              n := by
          simp [htl]; omega
        rw [List.take_append_eq_append_take,
          List.take_of_length_le (le_of_eq hlen2), hlen2, Nat.sub_self,
          List.take_zero, List.append_nil]
    · have hB : c < n := by omega
      rw [resize_eq_grow ⟨s, c, ⟨po⟩⟩ n hB]
      have htl : ((po.getD []).take s).length = s := by
        rw [List.length_take]; omega
      refine ⟨rfl, Nat.le_max_left _ _,
        fun h => absurd (show n ≤ s from h) (by omega), fun _ => ?_,
        fun _ => rfl⟩
      show List.take n ((po.getD []).take s ++
          List.replicate (max n (2 * c) - s) default) =
        List.take s (po.getD []) ++ List.replicate (n - s) default
      rw [List.take_append_eq_append_take,
        List.take_of_length_le (by rw [htl]; omega), htl,
        List.take_replicate]
      have hmx := Nat.le_max_left n (2 * c)
      rw [Nat.min_eq_left (by omega)]
  · have hns : n ≤ s := by omega
    rw [resize_eq_trunc ⟨s, c, ⟨po⟩⟩ n hsn (show n ≤ c by omega)]
    refine ⟨rfl, show n ≤ c by omega, fun _ => ?_,
      fun h => absurd (show s < n from h) hsn,
      fun h => absurd (show c < n from h) (by omega)⟩
    show List.take n (po.getD []) =
      List.take n (List.take s (po.getD []))
    rw [List.take_take, Nat.min_eq_left hns]

/-- Witness for `resize_spec` at `v = {1, 2, 3}` with `n = 2`
(truncation) and `n = 7` (growth past capacity 3). -/
theorem resize_spec_witness :
    ((SimpleVector.mkInit [(1 : Nat), 2, 3]).Resize 2).toList =
      (SimpleVector.mkInit [(1 : Nat), 2, 3]).toList.take 2 ∧
    ((SimpleVector.mkInit [(1 : Nat), 2, 3]).Resize 7).toList =
      (SimpleVector.mkInit [(1 : Nat), 2, 3]).toList ++
        List.replicate (7 - 3) default ∧
    ((SimpleVector.mkInit [(1 : Nat), 2, 3]).Resize 7).GetCapacity =
      max 7 (2 * 3) :=
  ⟨(resize_spec (SimpleVector.mkInit [(1 : Nat), 2, 3]) 2
      (by decide)).2.2.1 (by decide),
   (resize_spec (SimpleVector.mkInit [(1 : Nat), 2, 3]) 7
      (by decide)).2.2.2.1 (by decide),
   (resize_spec (SimpleVector.mkInit [(1 : Nat), 2, 3]) 7
      (by decide)).2.2.2.2 (by decide)⟩

/-- Claim C3: from a default-constructed vector, repeated `PushBack`
yields the capacity sequence 0, 1, 2, 4, 4, 8, 8, 8, 8, 16, … ; in
general, a `PushBack` on a full vector (`size == capacity`) sets the
capacity to `max(size+1, 2*capacity)`, so the first growth from
capacity 0 gives capacity 1 and every later growth exactly doubles. -/
theorem pushBack_growth_spec :
    ((List.range 10).map (fun k => (pushN k).GetCapacity) =
      [0, 1, 2, 4, 4, 8, 8, 8, 8, 16]) ∧
    ∀ (α : Type) [Inhabited α] (v : SimpleVector α) (x : α),
      v.GetSize = v.GetCapacity →
      ((v.PushBack x).GetCapacity = max (v.GetSize + 1) (2 * v.GetCapacity) ∧
       (v.GetCapacity = 0 → (v.PushBack x).GetCapacity = 1) ∧
       (1 ≤ v.GetCapacity →
         (v.PushBack x).GetCapacity = 2 * v.GetCapacity)) := by
  refine ⟨by decide, ?_⟩
  intro α _ v x h
  have h' : v.size_ = v.capacity_ := h
  have hcap : (v.PushBack x).GetCapacity =
      (v.Resize (v.size_ + 1)).GetCapacity := rfl
  have hmain : (v.PushBack x).GetCapacity =
      max (v.size_ + 1) (2 * v.capacity_) := by
    rw [hcap, resize_eq_grow v (v.size_ + 1) (by omega)]
    rfl
  refine ⟨hmain, fun hc => ?_, fun hc => ?_⟩
  · have hc' : v.capacity_ = 0 := hc
    rw [hmain]; omega
  · have hc' : 1 ≤ v.capacity_ := hc
    rw [hmain]
    show max (v.size_ + 1) (2 * v.capacity_) = 2 * v.capacity_
    omega

/-- Witness for `pushBack_growth_spec` at the full vector `{5}` (size
1, capacity 1): one more `PushBack` doubles the capacity to 2. -/
theorem pushBack_growth_spec_witness :
    ((SimpleVector.mkInit [(5 : Nat)]).PushBack 7).GetCapacity =
      2 * (SimpleVector.mkInit [(5 : Nat)]).GetCapacity :=
  (pushBack_growth_spec.2 Nat (SimpleVector.mkInit [(5 : Nat)]) 7
    rfl).2.2 (by decide)

/-- Claim C4 fails on the code: the copy constructor allocates only
when `size_ > 0`, so copying the reachable vector
`SimpleVector(Reserve(5))` — size 0, capacity 5, non-null buffer,
which itself satisfies the invariant — produces a vector with
capacity 5 and a **null** buffer, violating "buffer address is
non-null whenever capacity > 0". -/
theorem copy_ctor_invariant_violation :
    (SimpleVector.mkReserve 5 : SimpleVector Nat).Inv ∧
    (SimpleVector.copy (SimpleVector.mkReserve 5 : SimpleVector Nat)).GetCapacity
      = 5 ∧
    (SimpleVector.copy (SimpleVector.mkReserve 5 : SimpleVector Nat)).items_.ptr_
      = none ∧
    ¬ (SimpleVector.copy (SimpleVector.mkReserve 5 : SimpleVector Nat)).Inv := by
  decide

/-- Claim C5: `At(i)` returns the element at offset `i` exactly when
`i < Size()`, and otherwise throws `std::out_of_range` with message
"index >= size"; in particular `At(Size())` always throws, regardless
of capacity. `At` is modelled as a pure function of the vector, so a
failing call leaves the container unchanged by construction. -/
theorem at_spec {α : Type} [Inhabited α] (v : SimpleVector α) (i : Nat) :
    (i < v.GetSize → v.At i = Except.ok (v.get i)) ∧
    (v.GetSize ≤ i → v.At i = Except.error "index >= size") ∧
    v.At v.GetSize = Except.error "index >= size" := by
  refine ⟨fun h => ?_, fun h => ?_, ?_⟩
  · simp [At, get, show i < v.size_ from h]
  · simp [At, show ¬ i < v.size_ from Nat.not_lt.mpr h]
  · simp [At, GetSize]

/-- Witness for `at_spec` at `v = {4, 5}`: `At(1)` returns 5 and
`At(2) = At(Size())` throws. -/
theorem at_spec_witness :
    (SimpleVector.mkInit [(4 : Nat), 5]).At 1 = Except.ok 5 ∧
    (SimpleVector.mkInit [(4 : Nat), 5]).At 2 =
      Except.error "index >= size" := by
  constructor
  · rw [(at_spec (SimpleVector.mkInit [(4 : Nat), 5]) 1).1 (by decide)]; rfl
  · exact (at_spec (SimpleVector.mkInit [(4 : Nat), 5]) 2).2.1 (by decide)

/-- Claim C6: the move constructor and (non-self) move assignment
leave the source with size 0, capacity 0 and a null pointer, while
the destination takes over the source's exact prior fields — size,
capacity and buffer, hence all elements in order; self move
assignment (`this == &other`) is a no-op. -/
theorem move_spec {α : Type} (v w : SimpleVector α) :
    ((moveCtor v).1 = v ∧
     (moveCtor v).2.GetSize = 0 ∧
     (moveCtor v).2.GetCapacity = 0 ∧
     (moveCtor v).2.items_.ptr_ = none) ∧
    ((moveAssign v w false).1 = w ∧
     (moveAssign v w false).2.GetSize = 0 ∧
     (moveAssign v w false).2.GetCapacity = 0 ∧
     (moveAssign v w false).2.items_.ptr_ = none) ∧
    moveAssign v v true = (v, v) := by
  refine ⟨⟨rfl, rfl, rfl, rfl⟩, ⟨rfl, rfl, rfl, rfl⟩, rfl⟩

/-- `List.getD` agrees with `getElem` inside the bounds. -/
theorem list_getD_eq_getElem {α : Type} (l : List α) (d : α) {i : Nat}
    (h : i < l.length) : l.getD i d = l[i] := by
  simp [List.getD_eq_getElem?_getD, List.getElem?_eq_getElem h]

/-- `lexCompare` computes exactly the lexicographic strict order
`List.Lex (· < ·)`. -/
theorem lexCompare_iff_lex {α : Type} [LinearOrder α] (l₁ l₂ : List α) :
    lexCompare l₁ l₂ = true ↔ List.Lex (· < ·) l₁ l₂ := by
  induction l₁ generalizing l₂ with
  | nil =>
    cases l₂ with
    | nil => simp [lexCompare, List.Lex.not_nil_right]
    | cons b bs =>
      simp [lexCompare]
      exact List.Lex.nil
  | cons a as ih =>
    cases l₂ with
    | nil => simp [lexCompare, List.Lex.not_nil_right]
    | cons b bs =>
      by_cases hab : a < b
      · simp [lexCompare, hab]
        exact List.Lex.rel hab
      · by_cases hba : b < a
        · simp [lexCompare, hab, hba]
          intro hlex
          cases hlex with
          | cons h => exact absurd hba (lt_irrefl a)
          | rel h => exact hab h
        · have heq : a = b := le_antisymm (le_of_not_lt hba) (le_of_not_lt hab)
          subst heq
          simp only [lexCompare, lt_irrefl, if_false, reduceIte]
          rw [List.Lex.cons_iff]
          exact ih bs

/-- The buffer cell read through a `SimpleVector` agrees with the
logical contents list inside the bounds. -/
theorem get_eq_toList_getD {α : Type} [Inhabited α] (v : SimpleVector α)
    {i : Nat} (h : i < v.size_) :
    v.get i = v.toList.getD i default := by
  simp [SimpleVector.get, SimpleVector.toList,
    List.getD_eq_getElem?_getD, List.getElem?_take, h]

/-- Under well-formedness and equal sizes, equality of the logical
contents is pairwise equality of the elements. -/
theorem toList_eq_iff_get {α : Type} [Inhabited α] (a b : SimpleVector α)
    (ha : a.WF) (hb : b.WF) (hsz : a.GetSize = b.GetSize) :
    a.toList = b.toList ↔ ∀ i, i < a.GetSize → a.get i = b.get i := by
  have la := SimpleVector.toList_length a ha
  have lb := SimpleVector.toList_length b hb
  constructor
  · intro he i hi
    have hi' : i < a.size_ := hi
    have hi2 : i < b.size_ := by
      have hsz' : a.size_ = b.size_ := hsz
      omega
    rw [get_eq_toList_getD a hi', get_eq_toList_getD b hi2, he]
  · intro hg
    apply List.ext_getElem (by rw [la, lb]; exact hsz)
    intro i h1 h2
    have hi : i < a.size_ := by
      have : i < a.GetSize := by rw [← la]; exact h1
      exact this
    have hi2 : i < b.size_ := by
      have : i < b.GetSize := by rw [← lb]; exact h2
      exact this
    have hgi := hg i hi
    rw [get_eq_toList_getD a hi, get_eq_toList_getD b hi2] at hgi
    rw [list_getD_eq_getElem a.toList default h1,
      list_getD_eq_getElem b.toList default h2] at hgi
    exact hgi

/-- Claim C7: `==` holds iff the sizes agree and the elements agree
pairwise (mismatched sizes compare unequal); `<` is lexicographic
comparison of the element sequences (`List.Lex`), so a strict prefix
is less; `<=` is `(< || ==)`; `>` is `!(<=)`; `>=` is `!(<)`; with the
concrete examples `{1,2} < {1,2,3}`, `{1,2} != {1,2,3}` and
`{1,2,3} == {1,2,3}` from the specification. -/
theorem comparison_spec {α : Type} [Inhabited α] [LinearOrder α]
    (a b : SimpleVector α) (ha : a.WF) (hb : b.WF) :
    (svEq a b = true ↔
      a.GetSize = b.GetSize ∧ ∀ i, i < a.GetSize → a.get i = b.get i) ∧
    (a.GetSize ≠ b.GetSize → svEq a b = false) ∧
    (svLt a b = true ↔ List.Lex (· < ·) a.toList b.toList) ∧
    (svLe a b = (svLt a b || svEq a b)) ∧
    (svGt a b = !(svLe a b)) ∧
    (svGe a b = !(svLt a b)) ∧
    (svLt (SimpleVector.mkInit [(1 : Nat), 2])
      (SimpleVector.mkInit [1, 2, 3]) = true) ∧
    (svEq (SimpleVector.mkInit [(1 : Nat), 2])
      (SimpleVector.mkInit [1, 2, 3]) = false) ∧
    (svEq (SimpleVector.mkInit [(1 : Nat), 2, 3])
      (SimpleVector.mkInit [1, 2, 3]) = true) := by
  refine ⟨?_, ?_, lexCompare_iff_lex _ _, rfl, rfl, rfl,
    by decide, by decide, by decide⟩
  · by_cases hsz : a.GetSize = b.GetSize
    · have hsvEq : svEq a b = decide (a.toList = b.toList) := by
        simp [svEq, hsz]
      rw [hsvEq, decide_eq_true_eq]
      constructor
      · intro he
        exact ⟨hsz, (toList_eq_iff_get a b ha hb hsz).mp he⟩
      · intro h
        exact (toList_eq_iff_get a b ha hb hsz).mpr h.2
    · simp [svEq, hsz]
  · intro hne
    simp [svEq, hne]

/-- Witness for `comparison_spec`: the specification's concrete
equality and ordering examples, derived through the theorem. -/
theorem comparison_spec_witness :
    svEq (SimpleVector.mkInit [(1 : Nat), 2, 3])
      (SimpleVector.mkInit [1, 2, 3]) = true ∧
    svEq (SimpleVector.mkInit [(1 : Nat), 2])
      (SimpleVector.mkInit [1, 2, 3]) = false ∧
    svLt (SimpleVector.mkInit [(1 : Nat), 2])
      (SimpleVector.mkInit [1, 2, 3]) = true := by
  refine ⟨?_, ?_, ?_⟩
  · exact (comparison_spec (SimpleVector.mkInit [(1 : Nat), 2, 3])
      (SimpleVector.mkInit [1, 2, 3]) (by decide) (by decide)).1.mpr
      ⟨rfl, by decide⟩
  · exact (comparison_spec (SimpleVector.mkInit [(1 : Nat), 2])
      (SimpleVector.mkInit [1, 2, 3]) (by decide) (by decide)).2.1
      (by decide)
  · exact (comparison_spec (SimpleVector.mkInit [(1 : Nat), 2])
      (SimpleVector.mkInit [1, 2, 3]) (by decide) (by decide)).2.2.1.mpr
      (by decide)

end SimpleVector

namespace ArraydPtr

/-- Claim C8: `operator*` and `operator->` of `ArraydPtr` throw
`std::logic_error("Point to zero")` exactly when the owned pointer is
null, and otherwise return the pointed-to object (first cell)
respectively the raw address; a null pointer is never dereferenced
silently. -/
theorem arrayd_deref_spec {α : Type} [Inhabited α] (p : ArraydPtr α) :
    (p.ptr_ = none →
      p.derefStar = Except.error "Point to zero" ∧
      p.derefArrow = Except.error "Point to zero") ∧
    ∀ b, p.ptr_ = some b →
      p.derefStar = Except.ok (b.getD 0 default) ∧
      p.derefArrow = Except.ok b := by
  refine ⟨fun h => ?_, fun b h => ?_⟩
  · simp [derefStar, derefArrow, toBool, h]
  · simp [derefStar, derefArrow, toBool, h]

/-- Witness for `arrayd_deref_spec` at a null pointer and at a
pointer owning the buffer `[3, 4]`. -/
theorem arrayd_deref_spec_witness :
    (ArraydPtr.mk0 : ArraydPtr Nat).derefStar =
      Except.error "Point to zero" ∧
    (⟨some [3, 4]⟩ : ArraydPtr Nat).derefStar = Except.ok 3 ∧
    (⟨some [3, 4]⟩ : ArraydPtr Nat).derefArrow = Except.ok [3, 4] := by
  refine ⟨((arrayd_deref_spec (ArraydPtr.mk0 : ArraydPtr Nat)).1 rfl).1,
    ?_, ((arrayd_deref_spec (⟨some [3, 4]⟩ : ArraydPtr Nat)).2 [3, 4]
      rfl).2⟩
  rw [((arrayd_deref_spec (⟨some [3, 4]⟩ : ArraydPtr Nat)).2 [3, 4]
    rfl).1]
  rfl

end ArraydPtr

namespace SimpleVector

/-- Claim C9: `PopBack` is guarded by `if (!IsEmpty())`, so on an
empty vector it is a no-op leaving the whole state unchanged; on a
non-empty vector it decrements the size by exactly one and leaves the
capacity, the buffer, and hence the remaining elements unchanged. -/
theorem popBack_spec {α : Type} (v : SimpleVector α) :
    (v.GetSize = 0 → v.PopBack = v) ∧
    (0 < v.GetSize →
      v.PopBack.GetSize = v.GetSize - 1 ∧
      v.PopBack.GetCapacity = v.GetCapacity ∧
      v.PopBack.items_ = v.items_ ∧
      v.PopBack.toList = v.toList.take (v.GetSize - 1)) := by
  refine ⟨fun h => ?_, fun h => ?_⟩
  · have h' : v.size_ = 0 := h
    simp [PopBack, IsEmpty, h']
  · have h' : v.size_ ≠ 0 := by
      have h2 : 0 < v.size_ := h
      omega
    have he : v.PopBack = ⟨v.size_ - 1, v.capacity_, v.items_⟩ := by
      simp [PopBack, IsEmpty, h']
    rw [he]
    refine ⟨rfl, rfl, rfl, ?_⟩
    show v.buf.take (v.size_ - 1) = (v.buf.take v.size_).take (v.size_ - 1)
    rw [List.take_take, Nat.min_eq_left (by omega)]

/-- Witness for `popBack_spec`: on the empty default vector `PopBack`
changes nothing; on `{1, 2}` it leaves size 1. -/
theorem popBack_spec_witness :
    (SimpleVector.mkDefault : SimpleVector Nat).PopBack =
      SimpleVector.mkDefault ∧
    (SimpleVector.mkInit [(1 : Nat), 2]).PopBack.GetSize = 1 :=
  ⟨(popBack_spec (SimpleVector.mkDefault : SimpleVector Nat)).1 rfl,
   ((popBack_spec (SimpleVector.mkInit [(1 : Nat), 2])).2 (by decide)).1⟩

/-- Claim C10: `Erase` at `pos == end()` (offset `index == size`) is
guarded by `if (pos != end())`, so it changes nothing and returns the
`end()` offset; for `index < size` it shifts the elements
`[index+1, size)` left by one, decrements the size, leaves the
capacity unchanged, and returns the iterator offset of the erased
slot. -/
theorem erase_spec {α : Type} (v : SimpleVector α) (index : Nat)
    (hwf : v.WF) :
    (index = v.GetSize → v.Erase index = (v, v.GetSize)) ∧
    (index < v.GetSize →
      (v.Erase index).1.GetSize = v.GetSize - 1 ∧
      (v.Erase index).1.GetCapacity = v.GetCapacity ∧
      (v.Erase index).2 = index ∧
      (v.Erase index).1.toList =
        v.toList.take index ++ v.toList.drop (index + 1)) := by
  obtain ⟨s, c, ⟨po⟩⟩ := v
  have hsc : s ≤ c := hwf.1
  have hlen : (po.getD []).length = c := hwf.2
  clear hwf
  refine ⟨fun h => ?_, fun h => ?_⟩
  · have h' : index = s := h
    simp only [Erase, h', ne_eq, not_true_eq_false, if_false, reduceIte]
    exact Prod.ext rfl rfl
  · have h' : index < s := h
    have hne : index ≠ s := Nat.ne_of_lt h'
    cases po with
    | none =>
      exfalso
      simp only [Option.getD_none, List.length_nil] at hlen
      omega
    | some b =>
      simp only [Option.getD_some] at hlen
      have he : SimpleVector.Erase ⟨s, c, ⟨some b⟩⟩ index =
          (⟨s - 1, c, ⟨some (eraseShift b index s)⟩⟩, index) := by
        simp [Erase, hne]
      rw [he]
      refine ⟨rfl, rfl, rfl, ?_⟩
      show (eraseShift b index s).take (s - 1) =
        (b.take s).take index ++ (b.take s).drop (index + 1)
      have hXlen : (b.take index).length = index := by
        rw [List.length_take]; omega
      have hYlen : ((b.drop (index + 1)).take (s - 1 - index)).length =
          s - 1 - index := by
        rw [List.length_take, List.length_drop]; omega
      have hL : List.take (s - 1)
          ((b.take index ++ (b.drop (index + 1)).take (s - 1 - index)) ++
            b.drop (s - 1)) =
          b.take index ++ (b.drop (index + 1)).take (s - 1 - index) :=
        List.take_left' (by rw [List.length_append, hXlen, hYlen]; omega)
      rw [show eraseShift b index s =
          (b.take index ++ (b.drop (index + 1)).take (s - 1 - index)) ++
            b.drop (s - 1) from rfl]
      rw [hL, List.take_take, Nat.min_eq_left (Nat.le_of_lt h'),
        List.drop_take]
      have hsub : s - (index + 1) = s - 1 - index := by omega
      rw [hsub]

/-- Witness for `erase_spec`: erasing at `end()` of `{1, 2, 3}` is a
no-op returning offset 3; erasing offset 1 yields contents `[1, 3]`
and returns offset 1. -/
theorem erase_spec_witness :
    (SimpleVector.mkInit [(1 : Nat), 2, 3]).Erase 3 =
      (SimpleVector.mkInit [(1 : Nat), 2, 3], 3) ∧
    ((SimpleVector.mkInit [(1 : Nat), 2, 3]).Erase 1).1.toList = [1, 3] ∧
    ((SimpleVector.mkInit [(1 : Nat), 2, 3]).Erase 1).2 = 1 := by
  refine ⟨(erase_spec (SimpleVector.mkInit [(1 : Nat), 2, 3]) 3
      (by decide)).1 rfl, ?_,
    ((erase_spec (SimpleVector.mkInit [(1 : Nat), 2, 3]) 1
      (by decide)).2 (by decide)).2.2.1⟩
  rw [((erase_spec (SimpleVector.mkInit [(1 : Nat), 2, 3]) 1
    (by decide)).2 (by decide)).2.2.2]
  rfl

end SimpleVector
